import Mathlib

/-!
Verification of the semantic-segmentation map core (segmap_manager.py, utils.py):
markup rasterization, area-preserving vertex rounding, image/markup rescaling,
contour extraction and postprocessing.  External vision-library primitives
(OpenCV contour tracing, PIL polygon fill, shapely validity) are modelled as
explicit function parameters; repository code is embedded directly.
-/

/-- Truncation toward zero, the semantics of numpy `astype(np.int32)` on a
real value: floor for nonnegative values, ceiling for negative ones. -/
def ratTrunc (q : ℚ) : ℤ :=
  if 0 ≤ q then ⌊q⌋ else ⌈q⌉

/-- Number of elements of `l` strictly greater than `v`; embeds
`sum(1 for _x in xs if _x > x)` from `SegmapManager._proper_round`. -/
def countGreater (v : ℚ) (l : List ℚ) : ℕ :=
  l.countP (fun u => decide (v < u))

/-- Elements at even positions (`markup_bbox[::2]`). -/
def evenEntries : List ℚ → List ℚ
  | [] => []
  | [x] => [x]
  | x :: _ :: rest => x :: evenEntries rest

/-- Elements at odd positions (`markup_bbox[1::2]`). -/
def oddEntries : List ℚ → List ℚ
  | [] => []
  | [_] => []
  | _ :: y :: rest => y :: oddEntries rest

/-- Per-coordinate rounding rule of `_proper_round`: floor when more than one
entry of `l` is strictly greater than `v`, ceiling otherwise. -/
def roundCoord (l : List ℚ) (v : ℚ) : ℤ :=
  if 1 < countGreater v l then ⌊v⌋ else ⌈v⌉

/-- Interleaving of the rounded x- and y-lists
(`np.ravel(list(zip(xs, ys)))`). -/
def interleave : List ℤ → List ℤ → List ℤ
  | [], _ => []
  | _, [] => []
  | x :: xs, y :: ys => x :: y :: interleave xs ys

/-- Embedding of `SegmapManager._proper_round`: for a flat 8-coordinate
quadrilateral, round each x (resp. y) by `roundCoord` against the x- (resp.
y-) coordinates of all vertices; for any other length, convert each
coordinate with `astype(np.int32)`, i.e. truncation toward zero. -/
def proper_round (markup_bbox : List ℚ) : List ℤ :=
  if markup_bbox.length = 8 then
    let xs := evenEntries markup_bbox
    let ys := oddEntries markup_bbox
    interleave (xs.map (roundCoord xs)) (ys.map (roundCoord ys))
  else
    markup_bbox.map ratTrunc

/-- Rounding rule as the spec words it: count strictly greater values among
the OTHER three vertices only; floor when that count exceeds 1, else ceiling. -/
def specRoundRule (v : ℚ) (others : List ℚ) : ℤ :=
  if 1 < countGreater v others then ⌊v⌋ else ⌈v⌉

lemma countGreater_cons_self (v : ℚ) (l : List ℚ) :
    countGreater v (v :: l) = countGreater v l := by
  simp [countGreater, List.countP_cons, lt_irrefl]

lemma countGreater_cons_of_ne (v a : ℚ) (l : List ℚ) (h : ¬ v < a) :
    countGreater v (a :: l) = countGreater v l := by
  simp [countGreater, List.countP_cons, h]

/-- C1: on an 8-coordinate (4-vertex) input, `_proper_round` rounds every x-
and y-coordinate independently: floor when strictly more than one of the other
three vertices is strictly greater on that axis, ceiling otherwise (so the
1-greater/1-less/1-equal tie resolves to ceiling). -/
theorem proper_round_quad_rule (x1 y1 x2 y2 x3 y3 x4 y4 : ℚ) :
    proper_round [x1, y1, x2, y2, x3, y3, x4, y4] =
      [specRoundRule x1 [x2, x3, x4], specRoundRule y1 [y2, y3, y4],
       specRoundRule x2 [x1, x3, x4], specRoundRule y2 [y1, y3, y4],
       specRoundRule x3 [x1, x2, x4], specRoundRule y3 [y1, y2, y4],
       specRoundRule x4 [x1, x2, x3], specRoundRule y4 [y1, y2, y3]] := by
  show interleave _ _ = _
  have ex : evenEntries [x1, y1, x2, y2, x3, y3, x4, y4] = [x1, x2, x3, x4] := rfl
  have oy : oddEntries [x1, y1, x2, y2, x3, y3, x4, y4] = [y1, y2, y3, y4] := rfl
  rw [ex, oy]
  simp only [List.map, interleave, specRoundRule, roundCoord]
  simp [countGreater, List.countP_cons, lt_self_iff_false]

/-- C3 amended: on any input whose flat length is not 8, `_proper_round`
converts every coordinate by truncation toward zero (`astype(np.int32)`),
not by nearest-integer rounding. -/
theorem proper_round_non_quad (l : List ℚ) (hl : l.length ≠ 8) :
    proper_round l = l.map ratTrunc := by
  simp [proper_round, hl]

/-- C3 witness: the amended statement at the concrete input `[17/10]`. -/
theorem proper_round_non_quad_witness :
    ([(17 : ℚ)/10].length ≠ 8) ∧ proper_round [(17 : ℚ)/10] = [(17 : ℚ)/10].map ratTrunc :=
  ⟨by decide, proper_round_non_quad [(17 : ℚ)/10] (by decide)⟩

lemma floor_seventeen_tenths : ⌊(17 : ℚ)/10⌋ = 1 := by
  rw [Int.floor_eq_iff]
  norm_num

lemma round_seventeen_tenths : round ((17 : ℚ)/10) = 2 := by
  rw [round_eq, show (17 : ℚ)/10 + 1/2 = 11/5 by norm_num, Int.floor_eq_iff]
  norm_num

/-- C3 counterexample: at input `[1.7]` (length 1 ≠ 8) the code truncates to
`[1]`, which differs from nearest-integer rounding (`round 1.7 = 2`). -/
theorem proper_round_non_quad_not_nearest :
    proper_round [(17 : ℚ)/10] = [1] ∧ round ((17 : ℚ)/10) = 2 ∧
      proper_round [(17 : ℚ)/10] ≠ [round ((17 : ℚ)/10)] := by
  have h0 : (0 : ℚ) ≤ 17/10 := by norm_num
  have h1 : proper_round [(17 : ℚ)/10] = [1] := by
    simp [proper_round, ratTrunc, h0, floor_seventeen_tenths]
  refine ⟨h1, round_seventeen_tenths, ?_⟩
  rw [h1, round_seventeen_tenths]
  simp

/-- Python 3 `round` on an exact value: round half to even (banker's
rounding), as used by `_rescale_image_and_markup` for the quantized side. -/
def pyRound (q : ℚ) : ℤ :=
  if q - ⌊q⌋ < 1/2 then ⌊q⌋
  else if 1/2 < q - ⌊q⌋ then ⌊q⌋ + 1
  else if ⌊q⌋ % 2 = 0 then ⌊q⌋ else ⌊q⌋ + 1

/-- Embedding of `max(1, round(x)) * side_multiple` from
`_rescale_image_and_markup`. -/
def fit_to_multiple (x : ℚ) (m : ℕ) : ℕ :=
  (max 1 (pyRound x)).toNat * m

/-- Dimension computation of `SegmapManager._rescale_image_and_markup`:
given image size `(w, h)`, side multiple `m` and max side `M`, returns the
resized `(new_w, new_h)`.  When the longer side exceeds `M` it is pinned to
`M` and the shorter side is quantized after proportional downscale; otherwise
both sides are quantized to the nearest multiple of `m` (at least one). -/
def rescale_dims (w h m M : ℕ) : ℕ × ℕ :=
  if M < max w h then
    if h < w then
      (M, fit_to_multiple ((h : ℚ) * ((M : ℚ) / ((max h w : ℕ) : ℚ)) / (m : ℚ)) m)
    else
      (fit_to_multiple ((w : ℚ) * ((M : ℚ) / ((max h w : ℕ) : ℚ)) / (m : ℚ)) m, M)
  else
    (fit_to_multiple ((w : ℚ) / (m : ℚ)) m, fit_to_multiple ((h : ℚ) / (m : ℚ)) m)

lemma pyRound_cast_le (q : ℚ) : (pyRound q : ℚ) ≤ q + 1/2 := by
  have hfl : (⌊q⌋ : ℚ) ≤ q := Int.floor_le q
  unfold pyRound
  split
  · linarith
  · split
    · push_cast
      linarith
    · rename_i h1 h2
      rw [not_lt] at h1 h2
      have hq : q - ⌊q⌋ = 1/2 := le_antisymm h2 h1
      split
      · linarith
      · push_cast
        linarith

lemma pyRound_le_int {q : ℚ} {k : ℤ} (h : q ≤ (k : ℚ)) : pyRound q ≤ k := by
  have h1 : (pyRound q : ℚ) ≤ (k : ℚ) + 1/2 := le_trans (pyRound_cast_le q) (by linarith)
  have h2 : (pyRound q : ℚ) < (k : ℚ) + 1 := lt_of_le_of_lt h1 (by linarith)
  exact_mod_cast Int.lt_add_one_iff.mp (by exact_mod_cast h2)

lemma fit_to_multiple_dvd (x : ℚ) (m : ℕ) : m ∣ fit_to_multiple x m :=
  Dvd.intro_left _ rfl

lemma le_fit_to_multiple (x : ℚ) (m : ℕ) : m ≤ fit_to_multiple x m := by
  have h1 : (1 : ℤ) ≤ max 1 (pyRound x) := le_max_left _ _
  have h2 : 1 ≤ (max 1 (pyRound x)).toNat := by omega
  calc m = 1 * m := (one_mul m).symm
    _ ≤ (max 1 (pyRound x)).toNat * m := Nat.mul_le_mul_right m h2

lemma fit_to_multiple_le {x : ℚ} {m k : ℕ} (hk : 1 ≤ k) (hx : x ≤ (k : ℚ)) :
    fit_to_multiple x m ≤ k * m := by
  have h1 : pyRound x ≤ (k : ℤ) := pyRound_le_int (by exact_mod_cast hx)
  have h2 : max 1 (pyRound x) ≤ (k : ℤ) := max_le (by exact_mod_cast hk) h1
  have h3 : (max 1 (pyRound x)).toNat ≤ k := by omega
  exact Nat.mul_le_mul_right m h3

lemma fit_to_multiple_le_cap {x : ℚ} {m M k : ℕ} (hm : 0 < m) (hM : 0 < M)
    (hk : M = m * k) (hx : x ≤ (k : ℚ)) : fit_to_multiple x m ≤ M := by
  have hk1 : 1 ≤ k := Nat.pos_of_ne_zero (fun h0 => by subst h0; simp at hk; omega)
  calc fit_to_multiple x m ≤ k * m := fit_to_multiple_le hk1 hx
    _ = M := by rw [hk, Nat.mul_comm]

lemma scaled_side_le {a b m M k : ℕ} (hab : a ≤ b) (hb : 0 < b) (hm : 0 < m)
    (hk : M = m * k) : (a : ℚ) * ((M : ℚ) / (b : ℚ)) / (m : ℚ) ≤ (k : ℚ) := by
  have hb0 : (0 : ℚ) < b := by exact_mod_cast hb
  have hm0 : (0 : ℚ) < m := by exact_mod_cast hm
  have habq : (a : ℚ) ≤ (b : ℚ) := by exact_mod_cast hab
  have hMq : (M : ℚ) = (m : ℚ) * (k : ℚ) := by exact_mod_cast congrArg (Nat.cast : ℕ → ℚ) hk
  have e1 : (a : ℚ) * ((M : ℚ) / (b : ℚ)) / (m : ℚ) = (a : ℚ) * (M : ℚ) / ((b : ℚ) * (m : ℚ)) := by
    ring
  rw [e1, div_le_iff (by positivity), hMq]
  have hk0 : (0 : ℚ) ≤ (k : ℚ) := by positivity
  nlinarith [mul_le_mul_of_nonneg_right habq (mul_nonneg hm0.le hk0)]

lemma plain_side_le {a m M k : ℕ} (ha : a ≤ M) (hm : 0 < m) (hk : M = m * k) :
    (a : ℚ) / (m : ℚ) ≤ (k : ℚ) := by
  have hm0 : (0 : ℚ) < m := by exact_mod_cast hm
  rw [div_le_iff hm0]
  have hkm : a ≤ k * m := by
    calc a ≤ M := ha
      _ = k * m := by rw [hk, Nat.mul_comm]
  exact_mod_cast hkm

/-- C2 amended: for positive `w`, `h`, side multiple `m` and cap `M`, and
provided `M` is itself a multiple of `m`, the rescaled dimensions `(W, H)`
satisfy `W % m = 0`, `H % m = 0`, `max W H ≤ M`, `W ≥ m` and `H ≥ m`.
(Without `m ∣ M` the claim fails, see the counterexample.) -/
theorem rescale_dims_spec (w h m M : ℕ) (hw : 0 < w) (hh : 0 < h) (hm : 0 < m)
    (hM : 0 < M) (hdvd : m ∣ M) :
    (rescale_dims w h m M).1 % m = 0 ∧ (rescale_dims w h m M).2 % m = 0 ∧
      max (rescale_dims w h m M).1 (rescale_dims w h m M).2 ≤ M ∧
      m ≤ (rescale_dims w h m M).1 ∧ m ≤ (rescale_dims w h m M).2 := by
  obtain ⟨k, hk⟩ := hdvd
  have hmM : m ≤ M := by
    have hk1 : 1 ≤ k := Nat.pos_of_ne_zero (fun h0 => by subst h0; simp at hk; omega)
    calc m = m * 1 := (Nat.mul_one m).symm
      _ ≤ m * k := Nat.mul_le_mul_left m hk1
      _ = M := hk.symm
  have hMmod : M % m = 0 := by rw [hk]; exact Nat.mul_mod_right m k
  have hfitmod : ∀ x : ℚ, fit_to_multiple x m % m = 0 := fun x =>
    Nat.mul_mod_left ((max 1 (pyRound x)).toNat) m
  unfold rescale_dims
  split
  · rename_i hbig
    split
    · rename_i hwh
      have hmax : max h w = w := max_eq_right hwh.le
      rw [hmax]
      have hx : (h : ℚ) * ((M : ℚ) / (w : ℚ)) / (m : ℚ) ≤ (k : ℚ) :=
        scaled_side_le hwh.le hw hm hk
      have hle : fit_to_multiple ((h : ℚ) * ((M : ℚ) / (w : ℚ)) / (m : ℚ)) m ≤ M :=
        fit_to_multiple_le_cap hm hM hk hx
      exact ⟨hMmod, hfitmod _, max_le le_rfl hle, hmM, le_fit_to_multiple _ m⟩
    · rename_i hwh
      have hwle : w ≤ h := le_of_not_lt hwh
      have hmax : max h w = h := max_eq_left hwle
      rw [hmax]
      have hx : (w : ℚ) * ((M : ℚ) / (h : ℚ)) / (m : ℚ) ≤ (k : ℚ) :=
        scaled_side_le hwle hh hm hk
      have hle : fit_to_multiple ((w : ℚ) * ((M : ℚ) / (h : ℚ)) / (m : ℚ)) m ≤ M :=
        fit_to_multiple_le_cap hm hM hk hx
      exact ⟨hfitmod _, hMmod, max_le hle le_rfl, le_fit_to_multiple _ m, hmM⟩
  · rename_i hsmall
    rw [not_lt] at hsmall
    have hwM : w ≤ M := le_trans (le_max_left w h) hsmall
    have hhM : h ≤ M := le_trans (le_max_right w h) hsmall
    have hleW : fit_to_multiple ((w : ℚ) / (m : ℚ)) m ≤ M :=
      fit_to_multiple_le_cap hm hM hk (plain_side_le hwM hm hk)
    have hleH : fit_to_multiple ((h : ℚ) / (m : ℚ)) m ≤ M :=
      fit_to_multiple_le_cap hm hM hk (plain_side_le hhM hm hk)
    exact ⟨hfitmod _, hfitmod _, max_le hleW hleH, le_fit_to_multiple _ m,
      le_fit_to_multiple _ m⟩

/-- C2 witness: the amended rescaler invariants at `w=300, h=100, m=32, M=128`
(`M` a multiple of `m`). -/
theorem rescale_dims_spec_witness :
    (0 < 300 ∧ 0 < 100 ∧ 0 < 32 ∧ 0 < 128 ∧ 32 ∣ 128) ∧
      ((rescale_dims 300 100 32 128).1 % 32 = 0 ∧
        (rescale_dims 300 100 32 128).2 % 32 = 0 ∧
        max (rescale_dims 300 100 32 128).1 (rescale_dims 300 100 32 128).2 ≤ 128 ∧
        32 ≤ (rescale_dims 300 100 32 128).1 ∧ 32 ≤ (rescale_dims 300 100 32 128).2) :=
  ⟨by decide,
    rescale_dims_spec 300 100 32 128 (by decide) (by decide) (by decide) (by decide)
      (by decide)⟩

/-- C2 counterexample: at `w=300, h=100, m=32, M=100` (cap not a multiple of
the side multiple) the longer output side is pinned to `M = 100`, which is not
divisible by `m = 32` — the claimed invariant `W % m == 0` fails. -/
theorem rescale_dims_counterexample :
    (rescale_dims 300 100 32 100).1 = 100 ∧ (rescale_dims 300 100 32 100).1 % 32 ≠ 0 := by
  have h1 : (rescale_dims 300 100 32 100).1 = 100 := by
    unfold rescale_dims
    rw [if_pos (show (100 : ℕ) < max 300 100 by decide),
      if_pos (show (100 : ℕ) < 300 by decide)]
  exact ⟨h1, by rw [h1]; decide⟩

/-- Markup objects of data_markup.py (external to src/): `ObjectMarkup` (plain
polygon) and its subclass `ClassifiedObjectMarkup` carrying a 0-based class
id.  Only the fields segmap_manager.py reads are modelled. -/
inductive Markup where
  | plain (bbox : List ℚ)
  | classified (bbox : List ℚ) (objectType : ℕ)
deriving DecidableEq

/-- Flat coordinate sequence of a markup object. -/
def Markup.bbox : Markup → List ℚ
  | .plain b => b
  | .classified b _ => b

/-- Fill value chosen in `build_segmentation_map`: 255 in drawing mode,
otherwise `object_type + 1` for classified markup and 1 for plain markup. -/
def fill_color (for_drawing : Bool) (obj : Markup) : ℕ :=
  if for_drawing then 255
  else
    match obj with
    | .plain _ => 1
    | .classified _ t => t + 1

/-- Coordinates handed to `draw.polygon`: the object's bbox divided by
`scale`, then properly rounded (`_proper_round(object_markup.bbox / scale)`). -/
def drawn_bbox (scale : ℕ) (obj : Markup) : List ℤ :=
  proper_round (obj.bbox.map (fun q => q / (scale : ℚ)))

/-- Single-channel segmentation raster (PIL `Image` of mode `L`):
dimensions plus the pixel value function. -/
structure SegMap where
  width : ℕ
  height : ℕ
  pixel : ℕ → ℕ → ℕ

/-- The two assertion failures `build_segmentation_map` can raise: the
dimension/scale divisibility precondition, and the fill-value bound
`assert fill_color <= 255`. -/
inductive BuildError where
  | scaleError
  | colorError
deriving DecidableEq

/-- One `draw.polygon(points, fill)` call: pixels covered by the polygon
(per the PIL fill predicate `cov`) take the fill value, the rest keep their
previous value. -/
def draw_polygon (cov : List ℤ → ℕ → ℕ → Bool) (pts : List ℤ) (fill : ℕ)
    (px : ℕ → ℕ → ℕ) : ℕ → ℕ → ℕ :=
  fun x y => if cov pts x y then fill else px x y

/-- Drawing loop of `build_segmentation_map` over the markup list in input
order, including the per-object `assert fill_color <= 255` (only checked
outside drawing mode, exactly as in the source). -/
def draw_objects (cov : List ℤ → ℕ → ℕ → Bool) (scale : ℕ) (for_drawing : Bool) :
    List Markup → (ℕ → ℕ → ℕ) → Except BuildError (ℕ → ℕ → ℕ)
  | [], px => .ok px
  | obj :: rest, px =>
    if for_drawing = false ∧ 255 < fill_color for_drawing obj then .error .colorError
    else
      draw_objects cov scale for_drawing rest
        (draw_polygon cov (drawn_bbox scale obj) (fill_color for_drawing obj) px)

/-- Embedding of `SegmapManager.build_segmentation_map`: assert the scale
divides both dimensions, allocate a `(w/scale, h/scale)` zero raster, then
draw every markup object in input order with its fill value.  The PIL
polygon-fill predicate is the parameter `cov`. -/
def build_segmentation_map (cov : List ℤ → ℕ → ℕ → Bool) (w h : ℕ)
    (markup : List Markup) (scale : ℕ) (for_drawing : Bool) :
    Except BuildError SegMap :=
  if w % scale = 0 ∧ h % scale = 0 then
    match draw_objects cov scale for_drawing markup (fun _ _ => 0) with
    | .ok px => .ok ⟨w / scale, h / scale, px⟩
    | .error e => .error e
  else .error .scaleError

lemma draw_objects_error_eq (cov : List ℤ → ℕ → ℕ → Bool) (scale : ℕ)
    (fd : Bool) (l : List Markup) :
    ∀ (px : ℕ → ℕ → ℕ) (e : BuildError),
      draw_objects cov scale fd l px = .error e → e = .colorError := by
  induction l with
  | nil => intro px e he; simp [draw_objects] at he
  | cons obj rest ih =>
    intro px e he
    by_cases hbad : fd = false ∧ 255 < fill_color fd obj
    · rw [draw_objects, if_pos hbad] at he
      exact (Except.error.inj he).symm
    · rw [draw_objects, if_neg hbad] at he
      exact ih _ e he

lemma draw_objects_ok (cov : List ℤ → ℕ → ℕ → Bool) (scale : ℕ) (fd : Bool)
    (l : List Markup) :
    ∀ px : ℕ → ℕ → ℕ, (∀ obj ∈ l, fill_color fd obj ≤ 255) →
      ∃ f, draw_objects cov scale fd l px = .ok f ∧
        ∀ x y, f x y =
          match l.reverse.find? (fun obj => cov (drawn_bbox scale obj) x y) with
          | some obj => fill_color fd obj
          | none => px x y := by
  induction l with
  | nil =>
    intro px _
    exact ⟨px, rfl, fun x y => by simp⟩
  | cons obj rest ih =>
    intro px hvalid
    have hc : ¬(fd = false ∧ 255 < fill_color fd obj) := by
      rintro ⟨_, hgt⟩
      exact absurd (hvalid obj (List.mem_cons_self obj rest)) (by omega)
    rw [draw_objects, if_neg hc]
    obtain ⟨f, hf, hfx⟩ := ih (draw_polygon cov (drawn_bbox scale obj) (fill_color fd obj) px)
      (fun m hm => hvalid m (List.mem_cons_of_mem obj hm))
    refine ⟨f, hf, fun x y => ?_⟩
    rw [hfx x y, List.reverse_cons, List.find?_append]
    cases hfind : rest.reverse.find? (fun m => cov (drawn_bbox scale m) x y) with
    | some m' => simp [Option.orElse]
    | none =>
      simp only [Option.orElse, Option.none_orElse]
      by_cases hcov : cov (drawn_bbox scale obj) x y
      · simp [List.find?, hcov, draw_polygon]
      · simp only [Bool.not_eq_true] at hcov
        simp [List.find?, hcov, draw_polygon]

/-- C4: for positive `scale`, `build_segmentation_map` fails with the
divisibility precondition (`assert w % scale == 0 and h % scale == 0`)
exactly when `scale` does not evenly divide both dimensions; and every
successful build allocates a raster of dimensions `(w/scale, h/scale)`. -/
theorem build_segmentation_map_scale_precondition
    (cov : List ℤ → ℕ → ℕ → Bool) (w h scale : ℕ) (markup : List Markup)
    (for_drawing : Bool) (hs : 0 < scale) :
    (build_segmentation_map cov w h markup scale for_drawing = .error .scaleError
        ↔ ¬(w % scale = 0 ∧ h % scale = 0)) ∧
      ∀ sm, build_segmentation_map cov w h markup scale for_drawing = .ok sm →
        sm.width = w / scale ∧ sm.height = h / scale := by
  clear hs
  refine ⟨⟨?_, ?_⟩, ?_⟩
  · intro he hdiv
    rw [build_segmentation_map, if_pos hdiv] at he
    cases hdo : draw_objects cov scale for_drawing markup (fun _ _ => 0) with
    | ok px => rw [hdo] at he; simp at he
    | error e =>
      have h2 := draw_objects_error_eq cov scale for_drawing markup (fun _ _ => 0) e hdo
      subst h2
      rw [hdo] at he
      simp at he
  · intro hdiv
    rw [build_segmentation_map, if_neg hdiv]
  · intro sm hok
    rw [build_segmentation_map] at hok
    by_cases hdiv : w % scale = 0 ∧ h % scale = 0
    · rw [if_pos hdiv] at hok
      cases hdo : draw_objects cov scale for_drawing markup (fun _ _ => 0) with
      | ok px =>
        rw [hdo] at hok
        simp only [Except.ok.injEq] at hok
        rw [← hok]
        exact ⟨rfl, rfl⟩
      | error e => rw [hdo] at hok; simp at hok
    · rw [if_neg hdiv] at hok
      simp at hok

/-- C4 witness: the spec's scenario, a 201×200 image with scale 4 (201 not
divisible by 4): the build fails with the divisibility precondition. -/
theorem build_segmentation_map_scale_precondition_witness :
    (0 < 4) ∧
      ((build_segmentation_map (fun _ _ _ => true) 201 200 [] 4 false = .error .scaleError
          ↔ ¬(201 % 4 = 0 ∧ 200 % 4 = 0)) ∧
        ∀ sm, build_segmentation_map (fun _ _ _ => true) 201 200 [] 4 false = .ok sm →
          sm.width = 201 / 4 ∧ sm.height = 200 / 4) :=
  ⟨by decide,
    build_segmentation_map_scale_precondition (fun _ _ _ => true) 201 200 4 [] false
      (by decide)⟩

lemma draw_objects_error_of_bad (cov : List ℤ → ℕ → ℕ → Bool) (scale : ℕ)
    (fd : Bool) (l : List Markup) :
    ∀ px : ℕ → ℕ → ℕ, (∃ obj ∈ l, 255 < fill_color fd obj) →
      draw_objects cov scale fd l px = .error .colorError := by
  induction l with
  | nil => rintro px ⟨m, hm, _⟩; exact absurd hm (List.not_mem_nil m)
  | cons obj rest ih =>
    rintro px ⟨m, hm, hgt⟩
    cases fd with
    | true => simp [fill_color] at hgt
    | false =>
      by_cases hbad : 255 < fill_color false obj
      · rw [draw_objects, if_pos ⟨rfl, hbad⟩]
      · rw [draw_objects, if_neg (by rintro ⟨_, hc⟩; exact hbad hc)]
        apply ih
        rcases List.mem_cons.mp hm with heq | hmem
        · exact absurd (heq ▸ hgt) hbad
        · exact ⟨m, hmem, hgt⟩

/-- C5: in `build_segmentation_map` (with the scale precondition satisfied)
every object is filled with 255 in drawing mode, 1 when unclassified, and
`object_type + 1` when classified, asserting that value is at most 255 (the
build aborts with the fill-value assertion when some object violates it);
objects are drawn in input order, so each pixel holds the fill value of the
LAST object in input order covering it, and 0 where no object covers. -/
theorem build_segmentation_map_fill
    (cov : List ℤ → ℕ → ℕ → Bool) (w h scale : ℕ) (markup : List Markup)
    (for_drawing : Bool) (hs : 0 < scale)
    (hdiv : w % scale = 0 ∧ h % scale = 0) :
    (∀ obj, fill_color true obj = 255) ∧
      (∀ b, fill_color false (Markup.plain b) = 1) ∧
      (∀ b t, fill_color false (Markup.classified b t) = t + 1) ∧
      ((∀ obj ∈ markup, fill_color for_drawing obj ≤ 255) →
        ∃ sm, build_segmentation_map cov w h markup scale for_drawing = .ok sm ∧
          ∀ x y, sm.pixel x y =
            match markup.reverse.find? (fun obj => cov (drawn_bbox scale obj) x y) with
            | some obj => fill_color for_drawing obj
            | none => 0) ∧
      ((∃ obj ∈ markup, 255 < fill_color for_drawing obj) →
        build_segmentation_map cov w h markup scale for_drawing =
          .error .colorError) := by
  clear hs
  refine ⟨fun obj => rfl, fun b => rfl, fun b t => rfl, ?_, ?_⟩
  · intro hvalid
    obtain ⟨f, hf, hfx⟩ := draw_objects_ok cov scale for_drawing markup (fun _ _ => 0) hvalid
    refine ⟨⟨w / scale, h / scale, f⟩, ?_, hfx⟩
    rw [build_segmentation_map, if_pos hdiv, hf]
  · intro hbad
    rw [build_segmentation_map, if_pos hdiv,
      draw_objects_error_of_bad cov scale for_drawing markup (fun _ _ => 0) hbad]

/-- C5 witness: the fill/overwrite law at a concrete build — a 4×4 image at
scale 2 with one plain and one classified object under a total coverage
predicate. -/
theorem build_segmentation_map_fill_witness :
    (0 < 2) ∧ (4 % 2 = 0 ∧ 4 % 2 = 0) ∧
      ((∀ obj, fill_color true obj = 255) ∧
        (∀ b, fill_color false (Markup.plain b) = 1) ∧
        (∀ b t, fill_color false (Markup.classified b t) = t + 1) ∧
        ((∀ obj ∈ [Markup.plain [], Markup.classified [] 2],
            fill_color false obj ≤ 255) →
          ∃ sm, build_segmentation_map (fun _ _ _ => true) 4 4
              [Markup.plain [], Markup.classified [] 2] 2 false = .ok sm ∧
            ∀ x y, sm.pixel x y =
              match ([Markup.plain [], Markup.classified [] 2]).reverse.find?
                  (fun obj => (fun _ _ _ => true : List ℤ → ℕ → ℕ → Bool)
                    (drawn_bbox 2 obj) x y) with
              | some obj => fill_color false obj
              | none => 0) ∧
        ((∃ obj ∈ [Markup.plain [], Markup.classified [] 2],
            255 < fill_color false obj) →
          build_segmentation_map (fun _ _ _ => true) 4 4
              [Markup.plain [], Markup.classified [] 2] 2 false =
            .error .colorError)) :=
  ⟨by decide, by decide,
    build_segmentation_map_fill (fun _ _ _ => true) 4 4 2
      [Markup.plain [], Markup.classified [] 2] false (by decide) (by decide)⟩

/-- Four corner points, the return shape of `cv2.boxPoints(rect)`. -/
def PointQuad : Type := (ℚ × ℚ) × (ℚ × ℚ) × (ℚ × ℚ) × (ℚ × ℚ)

/-- The `.reshape((8,))` flattening of 4 corner points into 8 flat
coordinates. -/
def reshape8 (p : PointQuad) : List ℚ :=
  [p.1.1, p.1.2, p.2.1.1, p.2.1.2, p.2.2.1.1, p.2.2.1.2, p.2.2.2.1, p.2.2.2.2]

/-- Embedding of `get_contours_and_boxes` (utils.py).  The OpenCV primitives
(`cv2.findContours` with external retrieval mode, `cv2.contourArea`,
`cv2.minAreaRect`, `cv2.boxPoints`) are opaque parameters; the repository
code keeps contours with area strictly greater than `min_area` and maps each
survivor to the flat corners of its minimum-area rectangle. -/
def get_contours_and_boxes {S C R : Type} (findContours : S → List C)
    (contourArea : C → ℚ) (minAreaRect : C → R) (boxPoints : R → PointQuad)
    (seg_map : S) (min_area : ℚ) : List C × List (List ℚ) :=
  let cnts := (findContours seg_map).filter (fun cnt => decide (min_area < contourArea cnt))
  (cnts, cnts.map (fun cnt => reshape8 (boxPoints (minAreaRect cnt))))

/-- C6: `get_contours_and_boxes` returns exactly the traced regions whose
contour area strictly exceeds the threshold (regions with area at most the
threshold are discarded), as two index-aligned lists of equal length in which
the i-th box is the 8 flat corner coordinates of the minimum-area rectangle
of the i-th contour. -/
theorem get_contours_and_boxes_spec {S C R : Type} (findContours : S → List C)
    (contourArea : C → ℚ) (minAreaRect : C → R) (boxPoints : R → PointQuad)
    (seg_map : S) (min_area : ℚ) :
    (get_contours_and_boxes findContours contourArea minAreaRect boxPoints
        seg_map min_area).1 =
      (findContours seg_map).filter (fun cnt => decide (min_area < contourArea cnt)) ∧
    (∀ cnt ∈ (get_contours_and_boxes findContours contourArea minAreaRect boxPoints
        seg_map min_area).1, min_area < contourArea cnt) ∧
    (∀ cnt ∈ findContours seg_map, contourArea cnt ≤ min_area →
      cnt ∉ (get_contours_and_boxes findContours contourArea minAreaRect boxPoints
        seg_map min_area).1) ∧
    (get_contours_and_boxes findContours contourArea minAreaRect boxPoints
        seg_map min_area).2.length =
      (get_contours_and_boxes findContours contourArea minAreaRect boxPoints
        seg_map min_area).1.length ∧
    (get_contours_and_boxes findContours contourArea minAreaRect boxPoints
        seg_map min_area).2 =
      (get_contours_and_boxes findContours contourArea minAreaRect boxPoints
        seg_map min_area).1.map (fun cnt => reshape8 (boxPoints (minAreaRect cnt))) ∧
    (∀ b ∈ (get_contours_and_boxes findContours contourArea minAreaRect boxPoints
        seg_map min_area).2, b.length = 8) := by
  refine ⟨rfl, ?_, ?_, ?_, rfl, ?_⟩
  · intro cnt hmem
    have := (List.mem_filter.mp hmem).2
    exact of_decide_eq_true this
  · intro cnt _ harea hmem
    have := of_decide_eq_true (List.mem_filter.mp hmem).2
    exact absurd this (not_lt.mpr harea)
  · show (((findContours seg_map).filter
        (fun cnt => decide (min_area < contourArea cnt))).map
          (fun cnt => reshape8 (boxPoints (minAreaRect cnt)))).length =
      ((findContours seg_map).filter
        (fun cnt => decide (min_area < contourArea cnt))).length
    exact List.length_map _ _
  · intro b hb
    obtain ⟨cnt, _, rfl⟩ := List.mem_map.mp hb
    rfl

/-- Maximum of a nonempty list of scores (`np.max(logits)` at one pixel). -/
def listMax : List ℚ → ℚ
  | [] => 0
  | x :: xs => xs.foldl max x

/-- Embedding of `np_softmax` (utils.py) at one pixel's score vector:
subtract the maximum score, apply the exponential pointwise, divide by the
sum.  The transcendental `np.exp` is the parameter `e`; the softmax theorem
assumes only its positivity (true of the exponential), and float arithmetic
is idealized as exact rational arithmetic. -/
def np_softmax (e : ℚ → ℚ) (logits : List ℚ) : List ℚ :=
  let shifted := logits.map (fun v => e (v - listMax logits))
  shifted.map (fun v => v / shifted.sum)

lemma foldl_max_add (c : ℚ) (l : List ℚ) :
    ∀ a : ℚ, (l.map (fun v => v + c)).foldl max (a + c) = l.foldl max a + c := by
  induction l with
  | nil => intro a; rfl
  | cons x xs ih =>
    intro a
    simp only [List.map, List.foldl]
    rw [max_add_add_right a x c, ih (max a x)]

lemma listMax_map_add (l : List ℚ) (c : ℚ) (hne : l ≠ []) :
    listMax (l.map (fun v => v + c)) = listMax l + c := by
  cases l with
  | nil => exact absurd rfl hne
  | cons x xs => exact foldl_max_add c xs x

lemma sum_map_div (l : List ℚ) (s : ℚ) :
    (l.map (fun v => v / s)).sum = l.sum / s := by
  induction l with
  | nil => simp
  | cons x xs ih => simp [ih, add_div]

/-- C8: per-pixel probability normalization: under positivity of the
exponential, the normalized vector of a nonempty score list sums to exactly
1, and adding the same constant to every score leaves the output unchanged. -/
theorem np_softmax_spec (e : ℚ → ℚ) (logits : List ℚ) (c : ℚ)
    (he : ∀ x, 0 < e x) (hne : logits ≠ []) :
    (np_softmax e logits).sum = 1 ∧
      np_softmax e (logits.map (fun v => v + c)) = np_softmax e logits := by
  constructor
  · have hpos : 0 < (logits.map (fun v => e (v - listMax logits))).sum := by
      apply List.sum_pos
      · intro x hx
        obtain ⟨v, _, rfl⟩ := List.mem_map.mp hx
        exact he _
      · intro hmap
        exact hne (List.map_eq_nil_iff.mp hmap)
    show ((logits.map (fun v => e (v - listMax logits))).map
        (fun v => v / (logits.map (fun v => e (v - listMax logits))).sum)).sum = 1
    rw [sum_map_div]
    exact div_self (ne_of_gt hpos)
  · unfold np_softmax
    rw [listMax_map_add logits c hne]
    have hsh : (logits.map (fun v => v + c)).map
          (fun v => e (v - (listMax logits + c))) =
        logits.map (fun v => e (v - listMax logits)) := by
      rw [List.map_map]
      apply List.map_congr_left
      intro v _
      have harg : v + c - (listMax logits + c) = v - listMax logits := by ring
      simp only [Function.comp]
      rw [harg]
    rw [hsh]

/-- C8 witness: the softmax properties at the two-class score vector
`[0, 1]` under a concrete positive exponential-like map (`2^ceil`) and
shift `3`: the normalized vector sums to 1 across both classes and is
unchanged by the shift. -/
theorem np_softmax_spec_witness :
    (∀ x : ℚ, 0 < (fun v : ℚ => ((2 : ℚ) ^ ⌈v⌉ : ℚ)) x) ∧ ([(0 : ℚ), 1] ≠ []) ∧
      ((np_softmax (fun v => (2 : ℚ) ^ ⌈v⌉) [(0 : ℚ), 1]).sum = 1 ∧
        np_softmax (fun v => (2 : ℚ) ^ ⌈v⌉) ([(0 : ℚ), 1].map (fun v => v + 3)) =
          np_softmax (fun v => (2 : ℚ) ^ ⌈v⌉) [(0 : ℚ), 1]) :=
  ⟨fun x => zpow_pos (by norm_num) ⌈x⌉, by simp,
    np_softmax_spec (fun v => (2 : ℚ) ^ ⌈v⌉) [(0 : ℚ), 1] 3
      (fun x => zpow_pos (by norm_num) ⌈x⌉) (by simp)⟩

/-- NetConfig surface consumed by `extract_bboxes_and_object_types`
(net_config is external to src/): the classification-support flag and the
class-id-to-name lookup. -/
structure NetConfig where
  isClassificationSupported : Bool
  getClassName : ℕ → String

/-- Class id read as `m.object_type` (data_markup.py is external to src/;
for plain markup the field is modelled as 0 — the classification branches
only ever meet classified markup). -/
def Markup.objectType : Markup → ℕ
  | .plain _ => 0
  | .classified _ t => t

/-- Object types returned by `extract_bboxes_and_object_types`: class ids
(`"id"` format) or class names (`"name"` format). -/
inductive ObjTypes where
  | ids (l : List ℕ)
  | names (l : List String)
deriving DecidableEq

/-- Embedding of `extract_bboxes_and_object_types` (utils.py): split the
markup into bboxes and object types; when classification is supported the
requested format must be `"id"` or `"name"`, any other format raises
`ValueError`; when classification is unsupported the types are `None` and
the format is never inspected. -/
def extract_bboxes_and_object_types (image_markup : List Markup)
    (cfg : NetConfig) (object_types_format : String) :
    Except String (List (List ℚ) × Option ObjTypes) :=
  if cfg.isClassificationSupported then
    if object_types_format = "id" then
      .ok (image_markup.map Markup.bbox,
        some (.ids (image_markup.map Markup.objectType)))
    else if object_types_format = "name" then
      .ok (image_markup.map Markup.bbox,
        some (.names (image_markup.map (fun m => cfg.getClassName m.objectType))))
    else .error ("Unsupported object type format")
  else .ok (image_markup.map Markup.bbox, none)

/-- C9 amended: `extract_bboxes_and_object_types` fails exactly when
classification is supported AND the requested format is neither `"id"` nor
`"name"`; when classification is unsupported an invalid format is accepted
and the call returns with types `None`. -/
theorem extract_bboxes_and_object_types_error_iff (image_markup : List Markup)
    (cfg : NetConfig) (fmt : String) :
    (∃ msg, extract_bboxes_and_object_types image_markup cfg fmt = .error msg) ↔
      (cfg.isClassificationSupported = true ∧ fmt ≠ "id" ∧ fmt ≠ "name") := by
  by_cases hc : cfg.isClassificationSupported = true
  · by_cases h1 : fmt = "id"
    · simp [extract_bboxes_and_object_types, hc, h1]
    · by_cases h2 : fmt = "name"
      · simp [extract_bboxes_and_object_types, hc, h1, h2]
      · simp [extract_bboxes_and_object_types, hc, h1, h2]
  · simp [extract_bboxes_and_object_types, hc]

/-- C9 counterexample: with a config that does not support classification,
an unsupported format string (neither `"name"` nor `"id"`) does NOT fail —
the call returns the bboxes with types `None`. -/
theorem extract_bboxes_and_object_types_counterexample :
    extract_bboxes_and_object_types [] ⟨false, fun _ => ""⟩ "bogus" =
      .ok ([], none) ∧ "bogus" ≠ "name" ∧ "bogus" ≠ "id" := by
  refine ⟨rfl, ?_, ?_⟩ <;> decide

/-- Embedding of `fix_quadrangle` (utils.py): shapely's simple-polygon
validity test and convex hull are opaque parameters; the second result
component records the `logging.info` diagnostics.  On an invalid polygon the
first four hull vertices are returned together with a diagnostic. -/
def fix_quadrangle {P : Type} (isValid : List P → Bool)
    (convexHull : List P → List P) (quad : List P) : List P × List String :=
  if isValid quad then (quad, [])
  else ((convexHull quad).take 4, ["polygon invalid"])

/-- C10: when the input already forms a valid simple polygon,
`fix_quadrangle` is the identity: it returns exactly the input points in
their original order and emits no diagnostic. -/
theorem fix_quadrangle_valid_identity {P : Type} (isValid : List P → Bool)
    (convexHull : List P → List P) (quad : List P) (hv : isValid quad = true) :
    fix_quadrangle isValid convexHull quad = (quad, []) := by
  simp [fix_quadrangle, hv]

/-- C10 witness: the identity behaviour on a concrete unit square under a
validity predicate accepting it. -/
theorem fix_quadrangle_valid_identity_witness :
    ((fun _ : List (ℚ × ℚ) => true) [(0, 0), (1, 0), (1, 1), (0, 1)] = true) ∧
      fix_quadrangle (fun _ => true) id [((0 : ℚ), (0 : ℚ)), (1, 0), (1, 1), (0, 1)] =
        ([((0 : ℚ), (0 : ℚ)), (1, 0), (1, 1), (0, 1)], []) :=
  ⟨rfl, fix_quadrangle_valid_identity (fun _ => true) id
    [((0 : ℚ), (0 : ℚ)), (1, 0), (1, 1), (0, 1)] rfl⟩
